import Mathlib

/-!
Verification development for the entwine point-cloud indexer, covering the
pre-analysis utilities in `src/entwine/util/info.cpp` and the `Subset` class
(`Subset::primary`, `Subset::postfix`, `Subset::Span`) from its header.

The C++ is shallowly embedded: `std::size_t` values are modelled as `Nat`
(the operations used here — comparison, right shift, increment — never
overflow in reachable states), `double` statistics values are modelled as
`Int` since the code only copies them, exceptions become `Except`/error
branches, and JSON stage objects become structures holding the fields the
code reads or writes.  External library behavior (pdal parsing/execution,
the LAS header scale/offset) enters through an explicit environment record
describing what those calls return for one run.
-/

set_option autoImplicit false

namespace Entwine

/-! ### Decimal strings: model of `std::to_string` on unsigned integers

`toDecCore` produces the decimal digit characters of `n`, most significant
first, exactly as `std::to_string` renders an unsigned value.  The fuel
argument makes the division recursion structural; `fuel = n + 1` always
suffices. -/

def toDecCore : Nat → Nat → List Char
  | 0, _ => []
  | fuel + 1, n =>
    if n < 10 then [Nat.digitChar n]
    else toDecCore fuel (n / 10) ++ [Nat.digitChar (n % 10)]

/-- Model of `std::to_string` on a `std::size_t`. -/
def natToString (n : Nat) : String := String.mk (toDecCore (n + 1) n)

/-- Decimal value of a digit-character list, most significant first:
the left inverse used to show `toDecCore` is injective. -/
def decValue (l : List Char) : Nat :=
  l.foldl (fun acc c => acc * 10 + (c.toNat - 48)) 0

/-! ### Subset (`src/unnamed/part_001`)

`Subset` holds `m_id` and `m_of` (both `std::size_t`); the spatial fields
(`m_sub`, `m_minimumNullDepth`, `m_boxes`) are not consulted by the claims
settled here and are omitted. -/

structure Subset where
  id : Nat
  of : Nat
deriving DecidableEq

/-- `bool primary() const { return !m_id; }` -/
def Subset.primary (s : Subset) : Bool := s.id == 0

/-- `std::string postfix() const { return "-" + std::to_string(m_id); }`
(`postfix` is a Lean keyword, hence the name `postfixStr`). -/
def Subset.postfixStr (s : Subset) : String := "-" ++ natToString s.id

/-- Modelled from the spec: the `Subset` constructor (not under `src/`)
validates the descriptor, requiring `id` in `[1..of]` and `of` a power of
four ("Subset descriptor. `(id:uint64 in [1..of], of:uint64
power-of-four, bounds)`"). -/
def Subset.Valid (s : Subset) : Prop :=
  1 ≤ s.id ∧ s.id ≤ s.of ∧ ∃ k, s.of = 4 ^ k

/-! ### Subset::Span (`src/unnamed/part_001`) -/

structure Span where
  mBegin : Nat
  mEnd : Nat
deriving DecidableEq

/-- `Span::merge`: throws unless `end() == other.begin()`, otherwise sets
`m_end = other.end()`.  The throw happens before any member is written, so
on error the span is unchanged; the `Except` embedding reflects this by
returning no modified span in the error case. -/
def Span.merge (s other : Span) : Except String Span :=
  if s.mEnd ≠ other.mBegin then Except.error "Cannot merge these spans"
  else Except.ok { s with mEnd := other.mEnd }

/-- `Span::up`: `m_begin >>= 2; m_end >>= 2;`. -/
def Span.up (s : Span) : Span := ⟨s.mBegin >>> 2, s.mEnd >>> 2⟩

/-! ### Data model for `info.cpp`

`dimension::Stats`, `dimension::Dimension`, `source::Info` and
`source::Source` are declared in headers that are not under `src/`; their
fields are modelled from the spec ("`{ path, info: {bounds, points, srs,
dimensions[], errors[]}, status }`", "schema (dimension list with
types/scale/offset/stats)") and from how `info.cpp` reads and writes them.
Scale and offset are optional, absent until assigned (the EPT schema leaves
them out when not set). -/

inductive DimType where
  | Signed8
  | Signed16
  | Signed32
  | Signed64
  | Unsigned8
  | Unsigned16
  | Unsigned32
  | Unsigned64
  | Float
  | Double
deriving DecidableEq

structure Stats where
  minimum : Int
  maximum : Int
  count : Nat
deriving DecidableEq

structure Dimension where
  name : String
  type : DimType
  scale : Option Int := none
  offset : Option Int := none
  stats : Option Stats := none
deriving DecidableEq

/-- The `ScaleOffset(Scale(sx,sy,sz), Offset(ox,oy,oz))` value built by
`getScaleOffset` from a LAS header. -/
structure ScaleOffset where
  sx : Int
  sy : Int
  sz : Int
  ox : Int
  oy : Int
  oz : Int
deriving DecidableEq

/-- `Bounds(xmin, ymin, zmin, xmax, ymax, zmax)`. -/
structure Bounds where
  minx : Int
  miny : Int
  minz : Int
  maxx : Int
  maxy : Int
  maxz : Int
deriving DecidableEq

structure Info where
  errors : List String := []
  metadata : String := ""
  srs : String := ""
  bounds : Bounds := ⟨0, 0, 0, 0, 0, 0⟩
  points : Nat := 0
  dimensions : List Dimension := []
deriving DecidableEq

structure Source where
  path : String
  info : Info := {}
deriving DecidableEq

/-! ### The pdal stage graph seen by `getInfo`

`pm.getStage()` hands `getInfo` the terminal stage of the parsed pipeline;
each stage has a name, a list of input stages, and either is or is not a
`pdal::Reader` (the `dynamic_cast` in `getReader`). -/

inductive PStage where
  | mk (name : String) (isReader : Bool) (inputs : List PStage)

def PStage.name : PStage → String
  | .mk n _ _ => n

def PStage.isReader : PStage → Bool
  | .mk _ r _ => r

def PStage.inputs : PStage → List PStage
  | .mk _ _ i => i

/-- `getReader` (info.cpp:89): walk `getInputs().at(0)` from the terminal
stage; a stage with more than one input throws "must be linear", and the
stage with no inputs must cast to `pdal::Reader` or "must start with
reader" is thrown. -/
def getReader : PStage → Except String PStage
  | .mk n r [] =>
    if r then Except.ok (.mk n r []) else
      Except.error "Invalid pipeline - must start with reader"
  | .mk _ _ [i] => getReader i
  | .mk _ _ (_ :: _ :: _) => Except.error "Invalid pipeline - must be linear"

/-- Specification-side description of the same walk: the unique source
stage of a linear pipeline, or `none` as soon as a stage on the walked
chain has more than one input (a non-linear graph). -/
def firstStage : PStage → Option PStage
  | .mk n r [] => some (.mk n r [])
  | .mk _ _ [i] => firstStage i
  | .mk _ _ (_ :: _ :: _) => none

/-! ### `getInfo` -/

/-- One entry of `table.layout()->dims()` together with
`statsFilter.getStats(id)`. -/
structure LayoutDim where
  name : String
  type : DimType
  stats : Stats
deriving DecidableEq

/-- Everything one `getInfo` run obtains from the external pdal library:
whether `readPipeline`/`validateStageOptions` throw, the terminal stage,
whether `run` throws, the layout dimensions with the stats filter results,
the reader metadata (an opaque JSON payload here), the result of
`getScaleOffset` on the reader (engaged exactly for LAS readers, holding
the LAS header scale/offset), and the table spatial reference WKT. -/
structure PipelineEnv where
  parseError : Option String := none
  terminal : Option PStage := none
  runError : Option String := none
  dims : List LayoutDim := []
  metadata : String := ""
  scaleOffset : Option ScaleOffset := none
  srs : String := ""

/-- The `Dimension(layout.dimName(id), layout.dimType(id), stats)` built in
the `getInfo` loop. -/
def mkDimension (l : LayoutDim) : Dimension :=
  { name := l.name, type := l.type, stats := some l.stats }

/-- Modelled from the spec: `dimension::find` (declared outside `src/`)
returns the first dimension with the given name; `getInfo` calls it for
"X", "Y" and "Z".  Absence is modelled as `none` (the C++ reference-return
would throw). -/
def dimFind (dims : List Dimension) (nm : String) : Option Dimension :=
  dims.find? fun d => d.name = nm

/-- Assignment through the reference returned by `dimension::find`:
update the first dimension with the given name. -/
def updateFirst (nm : String) (f : Dimension → Dimension) :
    List Dimension → List Dimension
  | [] => []
  | d :: rest =>
    if d.name = nm then f d :: rest else d :: updateFirst nm f rest

/-- `x.scale = so->scale()[0]; x.offset = so->offset()[0];
x.type = DimType::Signed32;` -/
def soUpdateX (so : ScaleOffset) (d : Dimension) : Dimension :=
  { d with scale := some so.sx, offset := some so.ox,
           type := DimType.Signed32 }

/-- The same three assignments on the Y dimension. -/
def soUpdateY (so : ScaleOffset) (d : Dimension) : Dimension :=
  { d with scale := some so.sy, offset := some so.oy,
           type := DimType.Signed32 }

/-- The same three assignments on the Z dimension. -/
def soUpdateZ (so : ScaleOffset) (d : Dimension) : Dimension :=
  { d with scale := some so.sz, offset := some so.oz,
           type := DimType.Signed32 }

/-- The three reference assignments of `getInfo` (info.cpp:175-188): set
scale, offset and `DimType::Signed32` on the X, then Y, then Z dimension. -/
def applyScaleOffset (so : ScaleOffset) (dims : List Dimension) :
    List Dimension :=
  updateFirst "Z" (soUpdateZ so)
    (updateFirst "Y" (soUpdateY so)
      (updateFirst "X" (soUpdateX so) dims))

/-- `getInfo` (info.cpp:129-210).  The `try` body is a sequence of
throwing steps; the `catch` turns the first failure into
`info.errors.push_back(e.what())`, so every error branch below yields the
`Info` state accumulated so far plus a one-element error list.  On the
success path, note that the C++ reads `x.stats->minimum` etc. through
references obtained before the scale/offset assignment; that assignment
never touches `stats`, so reading the pre-update dimension is identical.
`Option.getD` stands for `operator->` on an optional that is always
engaged here: every dimension built by `mkDimension` carries stats.  The
"Failed to find dimension" branch models `dimension::find` throwing for a
layout with no X, Y or Z. -/
def getInfo (env : PipelineEnv) : Info :=
  match env.parseError with
  | some e => { errors := [e] }
  | none =>
  match env.terminal with
  | none => { errors := ["Invalid pipeline - no stages"] }
  | some last =>
  if last.name ≠ "filters.stats" then
    { errors := ["Invalid pipeline - must end with filters.stats"] }
  else
    match getReader last with
    | Except.error e => { errors := [e] }
    | Except.ok _ =>
    match env.runError with
    | some e => { errors := [e] }
    | none =>
    let dims := env.dims.map mkDimension
    match dimFind dims "X", dimFind dims "Y", dimFind dims "Z" with
    | some x, some y, some z =>
      let dims2 :=
        match env.scaleOffset with
        | some so => applyScaleOffset so dims
        | none => dims
      { errors := []
        metadata := env.metadata
        srs := env.srs
        bounds := ⟨(x.stats.getD ⟨0, 0, 0⟩).minimum,
                   (y.stats.getD ⟨0, 0, 0⟩).minimum,
                   (z.stats.getD ⟨0, 0, 0⟩).minimum,
                   (x.stats.getD ⟨0, 0, 0⟩).maximum,
                   (y.stats.getD ⟨0, 0, 0⟩).maximum,
                   (z.stats.getD ⟨0, 0, 0⟩).maximum⟩
        points := (x.stats.getD ⟨0, 0, 0⟩).count
        dimensions := dims2 }
    | _, _, _ => { errors := ["Failed to find dimension"], dimensions := dims }

/-- The failure condition of one `getInfo` run: some step of the `try`
body throws.  Mirrors the case split of `getInfo`. -/
def pipelineFails (env : PipelineEnv) : Bool :=
  match env.parseError with
  | some _ => true
  | none =>
  match env.terminal with
  | none => true
  | some last =>
  if last.name ≠ "filters.stats" then true
  else
    match getReader last with
    | Except.error _ => true
    | Except.ok _ =>
    match env.runError with
    | some _ => true
    | none =>
    let dims := env.dims.map mkDimension
    match dimFind dims "X", dimFind dims "Y", dimFind dims "Z" with
    | some _, some _, some _ => false
    | _, _, _ => true

/-! ### `analyze` -/

/-- One resolved input filename handed to `analyze`.  A `.json` input is
fetched and parsed for an already-computed info (the `Except` collapses
`a.get`, `json::parse`, `j.at("path")` and `j.get<source::Info>()`, whose
success yields the embedded path and info); any other input is analyzed by
`getInfo` on the template pipeline with `"filename"` set to the path,
summarized by that run's environment. -/
inductive SourceInput where
  | file (path : String) (env : PipelineEnv)
  | jsonFile (path : String) (fetched : Except String (String × Info))

/-- The body of the per-source worker in `analyze` (info.cpp:292-342).
For a `.json` source the catch appends "Failed to fetch info: ..." to the
(default) info.  For a point-cloud source the worker assigns
`source.info = getInfo(pipeline)`; its own catch is unreachable because
`getInfo` catches everything, so it is not modelled. -/
def analyzeOne : SourceInput → Source
  | .file p env => ⟨p, getInfo env⟩
  | .jsonFile _ (Except.ok (newPath, info)) => ⟨newPath, info⟩
  | .jsonFile p (Except.error e) =>
      ⟨p, { errors := ["Failed to fetch info: " ++ e] }⟩

/-- `analyze` (info.cpp:280-347) over the already-resolved source list
(`resolve(inputs)` lives in `util/fs`, outside the analysis logic):
every source is processed, failures included.  The thread pool writes each
`source.info` into its own slot, so the result is the per-source map. -/
def analyze (inputs : List SourceInput) : List Source :=
  inputs.map analyzeOne

/-- Failure of the per-source analysis, for either input form. -/
def analysisFailed : SourceInput → Bool
  | .file _ env => pipelineFails env
  | .jsonFile _ (Except.error _) => true
  | .jsonFile _ (Except.ok _) => false

/-! ### `serialize` and stems -/

/-- Split a character list at every occurrence of `c`; never returns an
empty outer list. -/
def splitOnChar (c : Char) : List Char → List (List Char)
  | [] => [[]]
  | x :: xs =>
    match splitOnChar c xs with
    | [] => [[]]
    | h :: t => if x = c then [] :: h :: t else (x :: h) :: t

/-- Re-join character-list segments with `c` between them. -/
def joinWith (c : Char) : List (List Char) → List Char
  | [] => []
  | [l] => l
  | l :: ls => l ++ c :: joinWith c ls

/-- Modelled from the spec: `arbiter::getBasename` (vendored third-party
code, not under `src/`) returns the path component after the final
slash. -/
def getBasename (path : String) : String :=
  String.mk ((splitOnChar '/' path.data).getLastD path.data)

/-- Modelled from the spec: `arbiter::stripExtension` (vendored
third-party code, not under `src/`) removes the final dot-suffix when one
exists. -/
def stripExtension (s : String) : String :=
  let parts := splitOnChar '.' s.data
  if parts.length ≤ 1 then s else String.mk (joinWith '.' parts.dropLast)

/-- `getStem` (info.cpp:212). -/
def getStem (path : String) : String := stripExtension (getBasename path)

/-- The `std::set` insertion loop of `areBasenamesUnique`: return `false`
as soon as a stem repeats. -/
def stemsUniqueAux : List String → List String → Bool
  | _, [] => true
  | seen, s :: rest =>
    if s ∈ seen then false else stemsUniqueAux (s :: seen) rest

/-- `areBasenamesUnique` (info.cpp:217). -/
def areBasenamesUnique (sources : List Source) : Bool :=
  stemsUniqueAux [] (sources.map fun s => getStem s.path)

/-- The loop body of `serialize` (info.cpp:358-381) with its running
counter `i`: the key/payload pairs passed to `ep.put`, in loop order. -/
def serializeFrom (basenamesUnique : Bool) :
    Nat → List Source → List (String × Source)
  | _, [] => []
  | i, s :: rest =>
    ((if basenamesUnique then getStem s.path else natToString i) ++ ".json", s)
      :: serializeFrom basenamesUnique (i + 1) rest

/-- `serialize`: every source is written to `<stem>.json`, where the stem
falls back to the positional index when basenames collide. -/
def serialize (sources : List Source) : List (String × Source) :=
  serializeFrom (areBasenamesUnique sources) 0 sources

/-! ### `createInfoPipeline`

The JSON pipeline array is embedded as a list of stage objects carrying
the keys `createInfoPipeline` reads or writes; other keys are untouched by
the function and omitted.  The `pipeline.at("pipeline")` unwrap of an
object-shaped config and the `!is_array()` throw concern shapes that the
typed embedding cannot express; the `empty()` throw is kept. -/

structure Reprojection where
  inSrs : String
  outSrs : String
  hammer : Bool
deriving DecidableEq

structure JStage where
  type : Option String := none
  filename : Option String := none
  overrideSrs : Option String := none
  defaultSrs : Option String := none
  outSrs : Option String := none
  enumerate : Option String := none
deriving DecidableEq

/-- `stage.value("type", "")`. -/
def stageType (s : JStage) : String := s.type.getD ""

/-- The `std::find_if` of `findOrAppendStage`: index (iterator distance)
of the first stage of the given type. -/
def findStageIdx (p : List JStage) (t : String) : Option Nat :=
  match p with
  | [] => none
  | s :: rest =>
    if stageType s == t then some 0
    else (findStageIdx rest t).map (· + 1)

/-- In-place update of the list element at an index (a C++ mutation
through a reference into the array). -/
def modifyIdx {α : Type} (f : α → α) : Nat → List α → List α
  | _, [] => []
  | 0, x :: xs => f x :: xs
  | n + 1, x :: xs => x :: modifyIdx f n xs

/-- `findOrAppendStage` (info.cpp:31-42): the (possibly extended) pipeline
together with the index of the found-or-appended stage. -/
def findOrAppendStage (p : List JStage) (t : String) : List JStage × Nat :=
  match findStageIdx p t with
  | some i => (p, i)
  | none => (p ++ [{ type := some t }], p.length)

/-- `reader["override_srs"] = in` / `reader["default_srs"] = in`. -/
def setInSrs (r : Reprojection) (s : JStage) : JStage :=
  if r.hammer then { s with overrideSrs := some r.inSrs }
  else { s with defaultSrs := some r.inSrs }

/-- `filter.update({ {"out_srs", reprojection->out()} })`. -/
def setOutSrs (out : String) (s : JStage) : JStage :=
  { s with outSrs := some out }

/-- `if (!filter.count("enumerate")) filter.update({{"enumerate",
"Classification"}})`. -/
def setEnumerate (s : JStage) : JStage :=
  if s.enumerate = none then { s with enumerate := some "Classification" }
  else s

/-- `createInfoPipeline` (info.cpp:229-267). -/
def createInfoPipeline (pipeline : List JStage)
    (reprojection : Option Reprojection) : Except String (List JStage) :=
  if pipeline.isEmpty then Except.error "Invalid pipeline" else
  let p1 :=
    match reprojection with
    | none => pipeline
    | some r =>
      let pa :=
        if r.inSrs.length > 0 then modifyIdx (setInSrs r) 0 pipeline
        else pipeline
      let fr := findOrAppendStage pa "filters.reprojection"
      modifyIdx (setOutSrs r.outSrs) fr.2 fr.1
  let fs := findOrAppendStage p1 "filters.stats"
  Except.ok (modifyIdx setEnumerate fs.2 fs.1)

/-- The stage-type list of a pipeline; `findOrAppendStage`, stage counts
and appends are all functions of it. -/
def typesOf (p : List JStage) : List String := p.map stageType

/-- How many stages of a given type the pipeline holds. -/
def countOfType (p : List JStage) (t : String) : Nat :=
  p.countP fun s => stageType s == t

/-! ### Claim-side predicates -/

/-- The per-entry condition claimed for a successful `getInfo`: one entry
per layout dimension carrying that dimension's name, type and stats. -/
def dimsMatchLayout : List LayoutDim → List Dimension → Bool
  | [], [] => true
  | l :: ls, d :: ds =>
    if d.name = l.name ∧ d.type = l.type ∧ d.stats = some l.stats then
      dimsMatchLayout ls ds
    else false
  | _, _ => false

/-- Specification-side description of the scale/offset assignment on one
dimension: X, Y and Z receive the reader's scale/offset and become
`Signed32`; every other dimension is untouched. -/
def soUpdate (so : ScaleOffset) (d : Dimension) : Dimension :=
  if d.name = "X" then soUpdateX so d
  else if d.name = "Y" then soUpdateY so d
  else if d.name = "Z" then soUpdateZ so d
  else d

/-- A concrete successful run of a LAS reader: a linear
reader→stats pipeline, X/Y/Z layout dimensions of type `Double`, and an
engaged `getScaleOffset` result (the LAS header scale/offset). -/
def envLas : PipelineEnv :=
  { terminal := some (.mk "filters.stats" false [.mk "readers.las" true []])
    dims := [⟨"X", DimType.Double, ⟨1, 9, 4⟩⟩,
             ⟨"Y", DimType.Double, ⟨2, 8, 4⟩⟩,
             ⟨"Z", DimType.Double, ⟨3, 7, 4⟩⟩]
    scaleOffset := some ⟨1, 1, 1, 100, 200, 300⟩ }

/-- The same successful run through a non-LAS reader: `getScaleOffset`
returns nothing. -/
def envPlain : PipelineEnv :=
  { terminal := some (.mk "filters.stats" false [.mk "readers.text" true []])
    dims := [⟨"X", DimType.Double, ⟨1, 9, 4⟩⟩,
             ⟨"Y", DimType.Double, ⟨2, 8, 4⟩⟩,
             ⟨"Z", DimType.Double, ⟨3, 7, 4⟩⟩] }

/-! ## Theorems -/

theorem digitChar_toNat_of_lt : ∀ n < 10, (Nat.digitChar n).toNat = n + 48 := by
  decide

theorem digitChar_isDigit_of_lt : ∀ n < 10, (Nat.digitChar n).isDigit = true := by
  decide

theorem decValue_append_digit (l : List Char) (c : Char) :
    decValue (l ++ [c]) = decValue l * 10 + (c.toNat - 48) := by
  simp [decValue]

theorem decValue_toDecCore (fuel n : Nat) (h : n < fuel) :
    decValue (toDecCore fuel n) = n := by
  induction fuel generalizing n with
  | zero => omega
  | succ f ih =>
    by_cases h10 : n < 10
    · simp [toDecCore, h10, decValue, digitChar_toNat_of_lt n h10]
    · have hdiv : n / 10 < f := by
        have h1 : n / 10 < n := Nat.div_lt_self (by omega) (by omega)
        omega
      have hmod : n % 10 < 10 := Nat.mod_lt _ (by omega)
      simp only [toDecCore, h10, if_false, decValue_append_digit, ih _ hdiv,
        digitChar_toNat_of_lt _ hmod]
      omega

theorem toDecCore_isDigit (fuel n : Nat) :
    ∀ c ∈ toDecCore fuel n, c.isDigit = true := by
  induction fuel generalizing n with
  | zero => intro c hc; simp [toDecCore] at hc
  | succ f ih =>
    intro c hc
    by_cases h10 : n < 10
    · simp [toDecCore, h10] at hc
      simp [hc, digitChar_isDigit_of_lt n h10]
    · simp [toDecCore, h10] at hc
      rcases hc with hc | hc
      · exact ih _ c hc
      · have hmod : n % 10 < 10 := Nat.mod_lt _ (by omega)
        simp [hc, digitChar_isDigit_of_lt _ hmod]

theorem natToString_injective : Function.Injective natToString := by
  intro a b hab
  have h : toDecCore (a + 1) a = toDecCore (b + 1) b :=
    congrArg String.data hab
  have ha := decValue_toDecCore (a + 1) a (Nat.lt_succ_self a)
  have hb := decValue_toDecCore (b + 1) b (Nat.lt_succ_self b)
  rw [← ha, ← hb, h]

/-- C4. For every valid subset descriptor, the id lies in `[1..of]` and
`of` is a power of four; consequently `primary()` (which tests `m_id`)
returns `false` for every valid subset — no valid subset has id 0. -/
theorem subset_valid_id_range_and_primary_false (s : Subset) (h : s.Valid) :
    (1 ≤ s.id ∧ s.id ≤ s.of ∧ ∃ k, s.of = 4 ^ k) ∧
    s.primary = false ∧ s.id ≠ 0 := by
  obtain ⟨h1, h2, k, hk⟩ := h
  refine ⟨⟨h1, h2, k, hk⟩, ?_, by omega⟩
  simp [Subset.primary]
  omega

/-- Witness for C4 at the concrete subset `(id := 1, of := 4)`. -/
theorem subset_valid_id_range_and_primary_false_witness :
    Subset.Valid ⟨1, 4⟩ ∧
      ((1 ≤ (1 : Nat) ∧ (1 : Nat) ≤ 4 ∧ ∃ k, (4 : Nat) = 4 ^ k) ∧
        Subset.primary ⟨1, 4⟩ = false ∧ (1 : Nat) ≠ 0) :=
  ⟨⟨by decide, by decide, 1, by decide⟩,
    subset_valid_id_range_and_primary_false ⟨1, 4⟩
      ⟨by decide, by decide, 1, by decide⟩⟩

/-- C6. `postfix()` is `"-"` followed by the decimal representation of
the id: its characters are `'-'` followed by decimal digits whose value is
exactly `id`. -/
theorem subset_postfix_is_dash_decimal (s : Subset) :
    ∃ ds : List Char,
      (Subset.postfixStr s).data = '-' :: ds ∧
      (∀ c ∈ ds, c.isDigit = true) ∧
      decValue ds = s.id := by
  refine ⟨toDecCore (s.id + 1) s.id, ?_, toDecCore_isDigit _ _,
    decValue_toDecCore _ _ (Nat.lt_succ_self _)⟩
  simp [Subset.postfixStr, natToString, String.mk]

/-- C9. `Span::merge` succeeds iff `this.end() == other.begin()`; on
success the span becomes `[this.begin(), other.end())` with `begin`
unchanged, and on failure it throws (before any member is written, so the
span is unmodified). -/
theorem span_merge_iff (s other : Span) :
    (s.mEnd = other.mBegin →
      s.merge other = Except.ok ⟨s.mBegin, other.mEnd⟩) ∧
    (s.mEnd ≠ other.mBegin →
      s.merge other = Except.error "Cannot merge these spans") := by
  constructor
  · intro h; simp [Span.merge, h]
  · intro h; simp [Span.merge, h]

/-- Witness for C9 at concrete spans: `[0,2) ++ [2,5)` merges to `[0,5)`,
and `[0,2)` does not merge with `[3,5)`. -/
theorem span_merge_iff_witness :
    Span.merge ⟨0, 2⟩ ⟨2, 5⟩ = Except.ok ⟨0, 5⟩ ∧
    Span.merge ⟨0, 2⟩ ⟨3, 5⟩ = Except.error "Cannot merge these spans" :=
  ⟨(span_merge_iff ⟨0, 2⟩ ⟨2, 5⟩).1 rfl,
   (span_merge_iff ⟨0, 2⟩ ⟨3, 5⟩).2 (by decide)⟩

/-- C10. `Span::up` floor-divides both endpoints by four, and `k`
applications floor-divide both endpoints by `4 ^ k`. -/
theorem span_up_div_four (s : Span) (k : Nat) :
    Span.up s = ⟨s.mBegin / 4, s.mEnd / 4⟩ ∧
    Span.up^[k] s = ⟨s.mBegin / 4 ^ k, s.mEnd / 4 ^ k⟩ := by
  have hdiv : ∀ n : Nat, n >>> 2 = n / 4 := fun n => by
    rw [Nat.shiftRight_eq_div_pow]
  constructor
  · simp [Span.up, hdiv]
  · induction k generalizing s with
    | zero => simp
    | succ m ih =>
      rw [Function.iterate_succ_apply, ih (Span.up s)]
      simp [Span.up, hdiv, Nat.div_div_eq_div_mul, pow_succ]
      constructor <;> ring_nf

theorem append_json_injective :
    Function.Injective (fun s : String => s ++ ".json") := by
  intro a b h
  have hd : a.data ++ ".json".data = b.data ++ ".json".data := by
    have := congrArg String.data h
    simpa using this
  exact String.ext (List.append_cancel_right hd)

theorem stemsUniqueAux_true_iff (l : List String) :
    ∀ seen, stemsUniqueAux seen l = true ↔ l.Nodup ∧ ∀ x ∈ l, x ∉ seen := by
  induction l with
  | nil => intro seen; simp [stemsUniqueAux]
  | cons s rest ih =>
    intro seen
    by_cases hmem : s ∈ seen
    · simp [stemsUniqueAux, hmem]
    · simp only [stemsUniqueAux, hmem, if_false, ih (s :: seen),
        List.nodup_cons, List.mem_cons]
      constructor
      · rintro ⟨hnd, hall⟩
        refine ⟨⟨fun hs => (hall s hs (Or.inl rfl)).elim, hnd⟩, ?_⟩
        rintro x (rfl | hx)
        · exact hmem
        · exact fun hxseen => hall x hx (Or.inr hxseen)
      · rintro ⟨⟨hs, hnd⟩, hall⟩
        refine ⟨hnd, fun x hx => ?_⟩
        rintro (rfl | hxseen)
        · exact hs hx
        · exact hall x (Or.inr hx) hxseen

theorem areBasenamesUnique_iff_nodup (sources : List Source) :
    areBasenamesUnique sources = true ↔
      (sources.map fun s => getStem s.path).Nodup := by
  rw [areBasenamesUnique, stemsUniqueAux_true_iff]
  simp

theorem serializeFrom_map_snd (b : Bool) (l : List Source) :
    ∀ i, (serializeFrom b i l).map Prod.snd = l := by
  induction l with
  | nil => intro i; simp [serializeFrom]
  | cons s rest ih => intro i; simp [serializeFrom, ih]

theorem serializeFrom_true_keys (l : List Source) :
    ∀ i, (serializeFrom true i l).map Prod.fst =
      l.map fun s => getStem s.path ++ ".json" := by
  induction l with
  | nil => intro i; simp [serializeFrom]
  | cons s rest ih => intro i; simp [serializeFrom, ih]

theorem serializeFrom_false_keys (l : List Source) :
    ∀ i, (serializeFrom false i l).map Prod.fst =
      (List.range' i l.length).map fun j => natToString j ++ ".json" := by
  induction l with
  | nil => intro i; simp [serializeFrom]
  | cons s rest ih =>
    intro i
    simp [serializeFrom, ih (i + 1), List.range'_succ]

/-- C5. `serialize` writes each source's info to the key
`<stem>.json`, where the stem is the basename stripped of its extension
when all stems are distinct, and the positional index otherwise; in either
case the keys of distinct sources are pairwise distinct. -/
theorem serialize_keys_distinct (sources : List Source) :
    ((serialize sources).map Prod.snd = sources) ∧
    (areBasenamesUnique sources = true →
      (serialize sources).map Prod.fst =
        sources.map fun s => getStem s.path ++ ".json") ∧
    (areBasenamesUnique sources = false →
      (serialize sources).map Prod.fst =
        (List.range' 0 sources.length).map fun i => natToString i ++ ".json") ∧
    ((serialize sources).map Prod.fst).Pairwise (· ≠ ·) := by
  refine ⟨serializeFrom_map_snd _ _ _, ?_, ?_, ?_⟩
  · intro h
    rw [serialize, h]
    exact serializeFrom_true_keys sources 0
  · intro h
    rw [serialize, h]
    exact serializeFrom_false_keys sources 0
  · cases hu : areBasenamesUnique sources with
    | true =>
      rw [serialize, hu, serializeFrom_true_keys sources 0]
      have hnd : (sources.map fun s => getStem s.path).Nodup :=
        (areBasenamesUnique_iff_nodup sources).mp hu
      have : (sources.map fun s => getStem s.path ++ ".json") =
          ((sources.map fun s => getStem s.path).map fun t => t ++ ".json") := by
        simp [List.map_map, Function.comp]
      rw [this]
      exact hnd.map append_json_injective
    | false =>
      rw [serialize, hu, serializeFrom_false_keys sources 0]
      have hinj : Function.Injective fun j : Nat => natToString j ++ ".json" :=
        fun a b h => natToString_injective (append_json_injective h)
      exact (List.nodup_range' 0 sources.length).map hinj

/-- Witness for C5 at a concrete source list whose two paths share the
stem "f": the index fallback applies and the keys are "0.json" and
"1.json". -/
theorem serialize_keys_distinct_witness :
    areBasenamesUnique [⟨"a/f.las", {}⟩, ⟨"b/f.las", {}⟩] = false ∧
    (serialize [⟨"a/f.las", {}⟩, ⟨"b/f.las", {}⟩]).map Prod.fst =
      (List.range' 0 ([⟨"a/f.las", {}⟩, ⟨"b/f.las", {}⟩] :
        List Source).length).map (fun i => natToString i ++ ".json") :=
  ⟨by decide,
    (serialize_keys_distinct [⟨"a/f.las", {}⟩, ⟨"b/f.las", {}⟩]).2.2.1
      (by decide)⟩

theorem getInfo_errors_ne_nil_of_fails (env : PipelineEnv)
    (h : pipelineFails env = true) : (getInfo env).errors ≠ [] := by
  cases hp : env.parseError with
  | some e => simp [getInfo, hp]
  | none =>
  cases ht : env.terminal with
  | none => simp [getInfo, hp, ht]
  | some last =>
  by_cases hn : last.name = "filters.stats"
  case neg => simp [getInfo, hp, ht, hn]
  case pos =>
  cases hr : getReader last with
  | error e => simp [getInfo, hp, ht, hn, hr]
  | ok r =>
  cases hre : env.runError with
  | some e => simp [getInfo, hp, ht, hn, hr, hre]
  | none =>
  cases hx : dimFind (env.dims.map mkDimension) "X" with
  | none => simp [getInfo, hp, ht, hn, hr, hre, hx]
  | some x =>
  cases hy : dimFind (env.dims.map mkDimension) "Y" with
  | none => simp [getInfo, hp, ht, hn, hr, hre, hx, hy]
  | some y =>
  cases hz : dimFind (env.dims.map mkDimension) "Z" with
  | none => simp [getInfo, hp, ht, hn, hr, hre, hx, hy, hz]
  | some z =>
  exfalso
  simp [pipelineFails, hp, ht, hn, hr, hre, hx, hy, hz] at h

/-- C1. Per-source analysis failures are isolated: `analyze` yields
exactly one `Source` per input, each input's slot holds its own analysis
result, and a failed analysis (of either input form) always leaves a
non-empty `errors` list.  That `getInfo` never propagates an exception is
structural in the embedding: every throwing step of its `try` body ends in
the `catch` branch that records the message, so `getInfo` is a total
function into `Info`. -/
theorem analyze_info_for_every_source (inputs : List SourceInput) :
    (analyze inputs).length = inputs.length ∧
    (∀ i s, inputs.get? i = some s →
      (analyze inputs).get? i = some (analyzeOne s)) ∧
    (∀ s, analysisFailed s = true → (analyzeOne s).info.errors ≠ []) := by
  refine ⟨by simp [analyze], ?_, ?_⟩
  · intro i s hs
    simp [analyze]
    exact ⟨s, by simpa using hs, rfl⟩
  · intro s hfail
    cases s with
    | file p env =>
      have henv : pipelineFails env = true := by
        simpa [analysisFailed] using hfail
      simpa [analyzeOne] using getInfo_errors_ne_nil_of_fails env henv
    | jsonFile p fetched =>
      cases fetched with
      | ok v => simp [analysisFailed] at hfail
      | error e => simp [analyzeOne]

/-- Witness for C1 at a one-element input list whose fetch fails. -/
theorem analyze_info_for_every_source_witness :
    (analyze [SourceInput.jsonFile "x.json" (Except.error "boom")]).length =
      ([SourceInput.jsonFile "x.json" (Except.error "boom")] :
        List SourceInput).length ∧
    (analyze [SourceInput.jsonFile "x.json" (Except.error "boom")]).get? 0 =
      some (analyzeOne (SourceInput.jsonFile "x.json" (Except.error "boom"))) ∧
    (analyzeOne (SourceInput.jsonFile "x.json"
      (Except.error "boom"))).info.errors ≠ [] := by
  have h := analyze_info_for_every_source
    [SourceInput.jsonFile "x.json" (Except.error "boom")]
  exact ⟨h.1, h.2.1 0 _ rfl, h.2.2 _ rfl⟩

theorem getReader_spec (s : PStage) :
    (firstStage s = none →
      getReader s = Except.error "Invalid pipeline - must be linear") ∧
    (∀ f, firstStage s = some f → f.isReader = false →
      getReader s = Except.error "Invalid pipeline - must start with reader") ∧
    (∀ f, firstStage s = some f → f.isReader = true →
      getReader s = Except.ok f) := by
  induction s using getReader.induct with
  | case1 n =>
    refine ⟨by simp [firstStage], ?_, ?_⟩
    · intro f hf hr
      simp [firstStage] at hf
      subst hf
      simp [PStage.isReader] at hr
    · intro f hf hr
      simp [firstStage] at hf
      subst hf
      simp [getReader]
  | case2 n r hr =>
    have hrf : r = false := by revert hr; cases r <;> simp
    subst hrf
    refine ⟨by simp [firstStage], ?_, ?_⟩
    · intro f hf hread
      simp [firstStage] at hf
      subst hf
      simp [getReader]
    · intro f hf hread
      simp [firstStage] at hf
      subst hf
      simp [PStage.isReader] at hread
  | case3 nm rd i ih =>
    refine ⟨?_, ?_, ?_⟩
    · intro h
      simp only [firstStage] at h
      simp only [getReader]
      exact ih.1 h
    · intro f hf hread
      simp only [firstStage] at hf
      simp only [getReader]
      exact ih.2.1 f hf hread
    · intro f hf hread
      simp only [firstStage] at hf
      simp only [getReader]
      exact ih.2.2 f hf hread
  | case4 nm rd a b t =>
    refine ⟨fun _ => by simp [getReader], ?_, ?_⟩ <;>
      · intro f hf hread
        simp [firstStage] at hf

/-- C7. A malformed pipeline is reported, not analyzed: when the
parsed pipeline has no stages (an empty pipeline), or its walked stage
chain hits a stage with more than one input (non-linear), or its source
stage is not a reader, or its terminal stage is not `filters.stats`,
`getInfo` returns an `Info` whose errors contain an "Invalid pipeline"
message and whose point count is still the default 0 — the error is
raised before any point is ingested. -/
theorem getInfo_invalid_pipeline_error (env : PipelineEnv)
    (hparse : env.parseError = none)
    (hmal : env.terminal = none ∨
      ∃ last, env.terminal = some last ∧
        (firstStage last = none ∨
          (∃ f, firstStage last = some f ∧ f.isReader = false) ∨
          last.name ≠ "filters.stats")) :
    (∃ e ∈ (getInfo env).errors, ∃ rest, e = "Invalid pipeline" ++ rest) ∧
    (getInfo env).points = 0 := by
  rcases hmal with ht | ⟨last, ht, hcase⟩
  · refine ⟨⟨"Invalid pipeline - no stages", ?_, " - no stages", by decide⟩, ?_⟩ <;>
      simp [getInfo, hparse, ht]
  · by_cases hn : last.name = "filters.stats"
    · rcases hcase with hlin | ⟨f, hf, hread⟩ | hns
      · have hr := (getReader_spec last).1 hlin
        refine ⟨⟨"Invalid pipeline - must be linear", ?_,
          " - must be linear", by decide⟩, ?_⟩ <;>
          simp [getInfo, hparse, ht, hn, hr]
      · have hr := (getReader_spec last).2.1 f hf hread
        refine ⟨⟨"Invalid pipeline - must start with reader", ?_,
          " - must start with reader", by decide⟩, ?_⟩ <;>
          simp [getInfo, hparse, ht, hn, hr]
      · exact absurd hn hns
    · refine ⟨⟨"Invalid pipeline - must end with filters.stats", ?_,
        " - must end with filters.stats", by decide⟩, ?_⟩ <;>
        simp [getInfo, hparse, ht, hn]

/-- Witness for C7 at the concrete environment of a pipeline with no
stages. -/
theorem getInfo_invalid_pipeline_error_witness :
    (∃ e ∈ (getInfo { terminal := none }).errors,
      ∃ rest, e = "Invalid pipeline" ++ rest) ∧
    (getInfo { terminal := none }).points = 0 :=
  getInfo_invalid_pipeline_error { terminal := none } rfl (Or.inl rfl)

theorem updateFirst_of_not_mem (nm : String) (f : Dimension → Dimension)
    (l : List Dimension) (h : nm ∉ l.map Dimension.name) :
    updateFirst nm f l = l := by
  induction l with
  | nil => rfl
  | cons d rest ih =>
    simp only [List.map_cons, List.mem_cons, not_or] at h
    have hd : d.name ≠ nm := fun hh => h.1 hh.symm
    simp [updateFirst, hd, ih h.2]

theorem updateFirst_map_name (nm : String) (f : Dimension → Dimension)
    (hf : ∀ d, (f d).name = d.name) (l : List Dimension) :
    (updateFirst nm f l).map Dimension.name = l.map Dimension.name := by
  induction l with
  | nil => rfl
  | cons d rest ih =>
    by_cases h : d.name = nm <;> simp [updateFirst, h, hf, ih]

theorem applyScaleOffset_eq_map (so : ScaleOffset) (l : List Dimension)
    (hnd : (l.map Dimension.name).Nodup) :
    applyScaleOffset so l = l.map (soUpdate so) := by
  induction l with
  | nil => rfl
  | cons d rest ih =>
    simp only [List.map_cons, List.nodup_cons] at hnd
    obtain ⟨hni, hnd⟩ := hnd
    have ihr := ih hnd
    have hmapX : (updateFirst "X" (soUpdateX so) rest).map Dimension.name =
        rest.map Dimension.name :=
      updateFirst_map_name "X" (soUpdateX so) (fun d => rfl) rest
    by_cases hx : d.name = "X"
    · have hskip : updateFirst "X" (soUpdateX so) rest = rest :=
        updateFirst_of_not_mem _ _ _ (hx ▸ hni)
      rw [applyScaleOffset, hskip] at ihr
      have h1 : updateFirst "X" (soUpdateX so) (d :: rest) =
          soUpdateX so d :: rest := by
        simp [updateFirst, hx]
      have h2 : updateFirst "Y" (soUpdateY so) (soUpdateX so d :: rest) =
          soUpdateX so d :: updateFirst "Y" (soUpdateY so) rest := by
        simp [updateFirst, soUpdateX, hx]
      have h3 : updateFirst "Z" (soUpdateZ so)
          (soUpdateX so d :: updateFirst "Y" (soUpdateY so) rest) =
          soUpdateX so d ::
            updateFirst "Z" (soUpdateZ so)
              (updateFirst "Y" (soUpdateY so) rest) := by
        simp [updateFirst, soUpdateX, hx]
      rw [applyScaleOffset, h1, h2, h3, ihr, List.map_cons, soUpdate, if_pos hx]
    · by_cases hy : d.name = "Y"
      · have hskip : updateFirst "Y" (soUpdateY so)
            (updateFirst "X" (soUpdateX so) rest) =
            updateFirst "X" (soUpdateX so) rest := by
          apply updateFirst_of_not_mem
          rw [hmapX]; exact hy ▸ hni
        rw [applyScaleOffset, hskip] at ihr
        have h1 : updateFirst "X" (soUpdateX so) (d :: rest) =
            d :: updateFirst "X" (soUpdateX so) rest := by
          simp [updateFirst, hx]
        have h2 : updateFirst "Y" (soUpdateY so)
            (d :: updateFirst "X" (soUpdateX so) rest) =
            soUpdateY so d :: updateFirst "X" (soUpdateX so) rest := by
          simp [updateFirst, hy]
        have h3 : updateFirst "Z" (soUpdateZ so)
            (soUpdateY so d :: updateFirst "X" (soUpdateX so) rest) =
            soUpdateY so d ::
              updateFirst "Z" (soUpdateZ so)
                (updateFirst "X" (soUpdateX so) rest) := by
          simp [updateFirst, soUpdateY, hy]
        rw [applyScaleOffset, h1, h2, h3, ihr, List.map_cons, soUpdate,
          if_neg hx, if_pos hy]
      · by_cases hz : d.name = "Z"
        · have hskip : updateFirst "Z" (soUpdateZ so)
              (updateFirst "Y" (soUpdateY so)
                (updateFirst "X" (soUpdateX so) rest)) =
              updateFirst "Y" (soUpdateY so)
                (updateFirst "X" (soUpdateX so) rest) := by
            apply updateFirst_of_not_mem
            rw [updateFirst_map_name "Y" (soUpdateY so) (fun d => rfl), hmapX]
            exact hz ▸ hni
          rw [applyScaleOffset, hskip] at ihr
          have h1 : updateFirst "X" (soUpdateX so) (d :: rest) =
              d :: updateFirst "X" (soUpdateX so) rest := by
            simp [updateFirst, hx]
          have h2 : updateFirst "Y" (soUpdateY so)
              (d :: updateFirst "X" (soUpdateX so) rest) =
              d :: updateFirst "Y" (soUpdateY so)
                (updateFirst "X" (soUpdateX so) rest) := by
            simp [updateFirst, hy]
          have h3 : updateFirst "Z" (soUpdateZ so)
              (d :: updateFirst "Y" (soUpdateY so)
                (updateFirst "X" (soUpdateX so) rest)) =
              soUpdateZ so d ::
                updateFirst "Y" (soUpdateY so)
                  (updateFirst "X" (soUpdateX so) rest) := by
            simp [updateFirst, hz]
          rw [applyScaleOffset, h1, h2, h3, ihr, List.map_cons, soUpdate,
            if_neg hx, if_neg hy, if_pos hz]
        · have h1 : updateFirst "X" (soUpdateX so) (d :: rest) =
              d :: updateFirst "X" (soUpdateX so) rest := by
            simp [updateFirst, hx]
          have h2 : updateFirst "Y" (soUpdateY so)
              (d :: updateFirst "X" (soUpdateX so) rest) =
              d :: updateFirst "Y" (soUpdateY so)
                (updateFirst "X" (soUpdateX so) rest) := by
            simp [updateFirst, hy]
          have h3 : updateFirst "Z" (soUpdateZ so)
              (d :: updateFirst "Y" (soUpdateY so)
                (updateFirst "X" (soUpdateX so) rest)) =
              d :: updateFirst "Z" (soUpdateZ so)
                (updateFirst "Y" (soUpdateY so)
                  (updateFirst "X" (soUpdateX so) rest)) := by
            simp [updateFirst, hz]
          rw [applyScaleOffset, h1, h2, h3]
          rw [applyScaleOffset] at ihr
          rw [ihr, List.map_cons, soUpdate, if_neg hx, if_neg hy, if_neg hz]
theorem dimFind_map_mkDimension (lds : List LayoutDim) (nm : String) :
    dimFind (lds.map mkDimension) nm =
      (lds.find? fun l => l.name = nm).map mkDimension := by
  induction lds with
  | nil => rfl
  | cons l rest ih =>
    by_cases h : l.name = nm
    · simp [dimFind, mkDimension, List.find?_cons, h]
    · simp only [List.map_cons, dimFind, List.find?_cons] at *
      have h1 : (decide ((mkDimension l).name = nm)) = false := by
        simp [mkDimension, h]
      have h2 : (decide (l.name = nm)) = false := by simp [h]
      rw [h1, h2]
      exact ih

theorem map_name_map_mkDimension (lds : List LayoutDim) :
    ((lds.map mkDimension).map Dimension.name) = lds.map LayoutDim.name := by
  rw [List.map_map]
  exact List.map_congr_left fun l _ => rfl

theorem getInfo_success_inv (env : PipelineEnv)
    (h : (getInfo env).errors = []) :
    env.parseError = none ∧
    ∃ last, env.terminal = some last ∧ last.name = "filters.stats" ∧
      (∃ rdr, getReader last = Except.ok rdr) ∧
      env.runError = none ∧
      ∃ lx ly lz,
        env.dims.find? (fun l => l.name = "X") = some lx ∧
        env.dims.find? (fun l => l.name = "Y") = some ly ∧
        env.dims.find? (fun l => l.name = "Z") = some lz := by
  cases hp : env.parseError with
  | some e => simp [getInfo, hp] at h
  | none =>
  cases ht : env.terminal with
  | none => simp [getInfo, hp, ht] at h
  | some last =>
  by_cases hn : last.name = "filters.stats"
  case neg => simp [getInfo, hp, ht, hn] at h
  case pos =>
  cases hr : getReader last with
  | error e => simp [getInfo, hp, ht, hn, hr] at h
  | ok r =>
  cases hre : env.runError with
  | some e => simp [getInfo, hp, ht, hn, hr, hre] at h
  | none =>
  cases hx : dimFind (env.dims.map mkDimension) "X" with
  | none => simp [getInfo, hp, ht, hn, hr, hre, hx] at h
  | some x =>
  cases hy : dimFind (env.dims.map mkDimension) "Y" with
  | none => simp [getInfo, hp, ht, hn, hr, hre, hx, hy] at h
  | some y =>
  cases hz : dimFind (env.dims.map mkDimension) "Z" with
  | none => simp [getInfo, hp, ht, hn, hr, hre, hx, hy, hz] at h
  | some z =>
  rw [dimFind_map_mkDimension] at hx hy hz
  obtain ⟨lx, hlx, -⟩ := Option.map_eq_some'.mp hx
  obtain ⟨ly, hly, -⟩ := Option.map_eq_some'.mp hy
  obtain ⟨lz, hlz, -⟩ := Option.map_eq_some'.mp hz
  exact ⟨rfl, last, rfl, hn, ⟨r, hr⟩, rfl, lx, ly, lz, hlx, hly, hlz⟩

theorem getInfo_eq_of_success (env : PipelineEnv) (last : PStage) (rdr : PStage)
    (lx ly lz : LayoutDim)
    (hp : env.parseError = none) (ht : env.terminal = some last)
    (hn : last.name = "filters.stats") (hr : getReader last = Except.ok rdr)
    (hrun : env.runError = none)
    (hx : env.dims.find? (fun l => l.name = "X") = some lx)
    (hy : env.dims.find? (fun l => l.name = "Y") = some ly)
    (hz : env.dims.find? (fun l => l.name = "Z") = some lz) :
    getInfo env =
      { errors := []
        metadata := env.metadata
        srs := env.srs
        bounds := ⟨lx.stats.minimum, ly.stats.minimum, lz.stats.minimum,
                   lx.stats.maximum, ly.stats.maximum, lz.stats.maximum⟩
        points := lx.stats.count
        dimensions :=
          match env.scaleOffset with
          | some so => applyScaleOffset so (env.dims.map mkDimension)
          | none => env.dims.map mkDimension } := by
  have hx' : dimFind (env.dims.map mkDimension) "X" = some (mkDimension lx) := by
    rw [dimFind_map_mkDimension, hx]; rfl
  have hy' : dimFind (env.dims.map mkDimension) "Y" = some (mkDimension ly) := by
    rw [dimFind_map_mkDimension, hy]; rfl
  have hz' : dimFind (env.dims.map mkDimension) "Z" = some (mkDimension lz) := by
    rw [dimFind_map_mkDimension, hz]; rfl
  simp [getInfo, hp, ht, hn, hr, hrun, hx', hy', hz', mkDimension]

theorem soUpdate_name (so : ScaleOffset) (d : Dimension) :
    (soUpdate so d).name = d.name := by
  unfold soUpdate soUpdateX soUpdateY soUpdateZ
  split <;> try rfl
  split <;> try rfl
  split <;> rfl

theorem soUpdate_stats (so : ScaleOffset) (d : Dimension) :
    (soUpdate so d).stats = d.stats := by
  unfold soUpdate soUpdateX soUpdateY soUpdateZ
  split <;> try rfl
  split <;> try rfl
  split <;> rfl

/-- C2, amended. For every successfully analyzed pipeline (layout
names distinct, as a pdal layout guarantees): the bounds are the box of
the X/Y/Z stats minima and maxima, the point count is the X stats count,
and the dimension list has one entry per layout dimension carrying that
dimension's name and stats — carrying its type as well, except that when
the reader supplies a scale/offset (a LAS header) the X, Y and Z entries
are rewritten by `soUpdate`: they receive that scale/offset and type
`Signed32`. -/
theorem getInfo_success_bounds_points_dims (env : PipelineEnv)
    (lx ly lz : LayoutDim)
    (herr : (getInfo env).errors = [])
    (hnd : (env.dims.map LayoutDim.name).Nodup)
    (hx : env.dims.find? (fun l => l.name = "X") = some lx)
    (hy : env.dims.find? (fun l => l.name = "Y") = some ly)
    (hz : env.dims.find? (fun l => l.name = "Z") = some lz) :
    (getInfo env).bounds =
      ⟨lx.stats.minimum, ly.stats.minimum, lz.stats.minimum,
       lx.stats.maximum, ly.stats.maximum, lz.stats.maximum⟩ ∧
    (getInfo env).points = lx.stats.count ∧
    (getInfo env).dimensions.length = env.dims.length ∧
    (∀ i l d, env.dims.get? i = some l →
      (getInfo env).dimensions.get? i = some d →
      d.name = l.name ∧ d.stats = some l.stats ∧
      (env.scaleOffset = none → d = mkDimension l) ∧
      (∀ so, env.scaleOffset = some so → d = soUpdate so (mkDimension l))) := by
  obtain ⟨hp, last, ht, hn, ⟨rdr, hr⟩, hrun, lx', ly', lz', hx', hy', hz'⟩ :=
    getInfo_success_inv env herr
  rw [hx] at hx'
  rw [hy] at hy'
  rw [hz] at hz'
  obtain rfl : lx = lx' := Option.some.inj hx'
  obtain rfl : ly = ly' := Option.some.inj hy'
  obtain rfl : lz = lz' := Option.some.inj hz'
  have heq := getInfo_eq_of_success env last rdr lx ly lz hp ht hn hr hrun
    hx hy hz
  have hndm : ((env.dims.map mkDimension).map Dimension.name).Nodup := by
    rw [map_name_map_mkDimension]; exact hnd
  refine ⟨by rw [heq], by rw [heq], ?_, ?_⟩
  · rw [heq]
    cases hso : env.scaleOffset with
    | none => simp
    | some so =>
      simp [applyScaleOffset_eq_map so _ hndm]
  · intro i l d hl hd
    rw [heq] at hd
    cases hso : env.scaleOffset with
    | none =>
      rw [hso] at hd
      simp only at hd
      have : (env.dims.map mkDimension).get? i = some (mkDimension l) := by
        rw [List.get?_map, hl]; rfl
      rw [this] at hd
      obtain rfl : mkDimension l = d := Option.some.inj hd
      exact ⟨rfl, rfl, fun _ => rfl, fun so hso' => by simp at hso'⟩
    | some so =>
      rw [hso] at hd
      simp only at hd
      rw [applyScaleOffset_eq_map so _ hndm] at hd
      have : ((env.dims.map mkDimension).map (soUpdate so)).get? i =
          some (soUpdate so (mkDimension l)) := by
        rw [List.get?_map, List.get?_map, hl]; rfl
      rw [this] at hd
      obtain rfl : soUpdate so (mkDimension l) = d := Option.some.inj hd
      refine ⟨by rw [soUpdate_name]; rfl, by rw [soUpdate_stats]; rfl,
        fun hnone => by simp at hnone,
        fun so' hso' => ?_⟩
      obtain rfl : so = so' := Option.some.inj hso'
      rfl

/-- Witness for the amended C2 at the concrete successful non-LAS run
`envPlain`. -/
theorem getInfo_success_bounds_points_dims_witness :
    (getInfo envPlain).errors = [] ∧
    (getInfo envPlain).bounds = ⟨1, 2, 3, 9, 8, 7⟩ ∧
    (getInfo envPlain).points = 4 ∧
    (getInfo envPlain).dimensions.length = envPlain.dims.length := by
  have h := getInfo_success_bounds_points_dims envPlain
    ⟨"X", DimType.Double, ⟨1, 9, 4⟩⟩
    ⟨"Y", DimType.Double, ⟨2, 8, 4⟩⟩
    ⟨"Z", DimType.Double, ⟨3, 7, 4⟩⟩
    rfl (by decide) rfl rfl rfl
  exact ⟨rfl, h.1, h.2.1, h.2.2.1⟩

/-- Counterexample to C2 as frozen: the successful LAS run `envLas` has an
empty error list, yet its dimension entries do not carry the layout
dimension types — X, Y and Z were rewritten to `Signed32`. -/
theorem getInfo_dims_layout_type_counterexample :
    (getInfo envLas).errors = [] ∧
    dimsMatchLayout envLas.dims (getInfo envLas).dimensions = false := by
  exact ⟨rfl, rfl⟩

/-- C3, amended. For every successfully analyzed pipeline: exactly
when the reader supplies a scale/offset (`getScaleOffset` is engaged, i.e.
a LAS reader), the returned X, Y and Z dimensions carry that scale/offset
and their types are set to `Signed32`; for any other reader no scale or
offset is attached and the dimension list is exactly the layout
dimensions. -/
theorem getInfo_scale_offset_signed32 (env : PipelineEnv)
    (lx ly lz : LayoutDim)
    (herr : (getInfo env).errors = [])
    (hnd : (env.dims.map LayoutDim.name).Nodup)
    (hx : env.dims.find? (fun l => l.name = "X") = some lx)
    (hy : env.dims.find? (fun l => l.name = "Y") = some ly)
    (hz : env.dims.find? (fun l => l.name = "Z") = some lz) :
    (∀ so, env.scaleOffset = some so →
      dimFind (getInfo env).dimensions "X" =
        some ⟨lx.name, DimType.Signed32, some so.sx, some so.ox,
          some lx.stats⟩ ∧
      dimFind (getInfo env).dimensions "Y" =
        some ⟨ly.name, DimType.Signed32, some so.sy, some so.oy,
          some ly.stats⟩ ∧
      dimFind (getInfo env).dimensions "Z" =
        some ⟨lz.name, DimType.Signed32, some so.sz, some so.oz,
          some lz.stats⟩) ∧
    (env.scaleOffset = none →
      (getInfo env).dimensions = env.dims.map mkDimension ∧
      ∀ d ∈ (getInfo env).dimensions, d.scale = none ∧ d.offset = none) := by
  obtain ⟨hp, last, ht, hn, ⟨rdr, hr⟩, hrun, lx', ly', lz', hx', hy', hz'⟩ :=
    getInfo_success_inv env herr
  rw [hx] at hx'
  rw [hy] at hy'
  rw [hz] at hz'
  obtain rfl : lx = lx' := Option.some.inj hx'
  obtain rfl : ly = ly' := Option.some.inj hy'
  obtain rfl : lz = lz' := Option.some.inj hz'
  have heq := getInfo_eq_of_success env last rdr lx ly lz hp ht hn hr hrun
    hx hy hz
  have hndm : ((env.dims.map mkDimension).map Dimension.name).Nodup := by
    rw [map_name_map_mkDimension]; exact hnd
  have hxn : lx.name = "X" := by simpa using List.find?_some hx
  have hyn : ly.name = "Y" := by simpa using List.find?_some hy
  have hzn : lz.name = "Z" := by simpa using List.find?_some hz
  constructor
  · intro so hso
    rw [heq, hso]
    simp only
    rw [applyScaleOffset_eq_map so _ hndm]
    have hcomm : ∀ nm : String,
        dimFind ((env.dims.map mkDimension).map (soUpdate so)) nm =
          (dimFind (env.dims.map mkDimension) nm).map (soUpdate so) := by
      intro nm
      unfold dimFind
      rw [List.find?_map]
      have : ((fun d : Dimension => decide (d.name = nm)) ∘ soUpdate so) =
          fun d : Dimension => decide (d.name = nm) := by
        funext d
        simp [Function.comp, soUpdate_name]
      rw [this]
    refine ⟨?_, ?_, ?_⟩
    · rw [hcomm "X", dimFind_map_mkDimension, hx]
      simp only [Option.map_some']
      rw [soUpdate, mkDimension]
      simp only [hxn, if_pos rfl]
      rfl
    · rw [hcomm "Y", dimFind_map_mkDimension, hy]
      simp only [Option.map_some']
      rw [soUpdate, mkDimension]
      simp [hyn, soUpdateY]
    · rw [hcomm "Z", dimFind_map_mkDimension, hz]
      simp only [Option.map_some']
      rw [soUpdate, mkDimension]
      simp [hzn, soUpdateZ]
  · intro hso
    rw [heq, hso]
    refine ⟨rfl, ?_⟩
    intro d hd
    have hd' : d ∈ env.dims.map mkDimension := hd
    rw [List.mem_map] at hd'
    obtain ⟨l, -, rfl⟩ := hd'
    exact ⟨rfl, rfl⟩

/-- Witness for the amended C3 at the concrete successful LAS run
`envLas`. -/
theorem getInfo_scale_offset_signed32_witness :
    dimFind (getInfo envLas).dimensions "X" =
      some ⟨"X", DimType.Signed32, some 1, some 100, some ⟨1, 9, 4⟩⟩ ∧
    dimFind (getInfo envLas).dimensions "Y" =
      some ⟨"Y", DimType.Signed32, some 1, some 200, some ⟨2, 8, 4⟩⟩ ∧
    dimFind (getInfo envLas).dimensions "Z" =
      some ⟨"Z", DimType.Signed32, some 1, some 300, some ⟨3, 7, 4⟩⟩ :=
  (getInfo_scale_offset_signed32 envLas
    ⟨"X", DimType.Double, ⟨1, 9, 4⟩⟩
    ⟨"Y", DimType.Double, ⟨2, 8, 4⟩⟩
    ⟨"Z", DimType.Double, ⟨3, 7, 4⟩⟩
    rfl (by decide) rfl rfl rfl).1 ⟨1, 1, 1, 100, 200, 300⟩ rfl

/-- Counterexample to C3 as frozen: the successful non-LAS run `envPlain`
returns an X dimension with no scale, no offset, and a type that is not
`Signed32`. -/
theorem getInfo_no_scale_offset_counterexample :
    (getInfo envPlain).errors = [] ∧
    dimFind (getInfo envPlain).dimensions "X" =
      some ⟨"X", DimType.Double, none, none, some ⟨1, 9, 4⟩⟩ ∧
    DimType.Double ≠ DimType.Signed32 :=
  ⟨rfl, rfl, by decide⟩

theorem modifyIdx_get? {α : Type} (f : α → α) (i : Nat) (l : List α) :
    ∀ j, (modifyIdx f i l).get? j =
      if i = j then (l.get? j).map f else l.get? j := by
  induction l generalizing i with
  | nil => intro j; simp [modifyIdx]
  | cons x xs ih =>
    intro j
    cases i with
    | zero =>
      cases j with
      | zero => simp [modifyIdx]
      | succ k => simp [modifyIdx]
    | succ n =>
      cases j with
      | zero => simp [modifyIdx]
      | succ k =>
        have h1 : (modifyIdx f (n + 1) (x :: xs)).get? (k + 1) =
            (modifyIdx f n xs).get? k := rfl
        have h2 : (x :: xs).get? (k + 1) = xs.get? k := rfl
        rw [h1, h2, ih n k]
        by_cases h : n = k
        · simp [h]
        · simp [h, fun hh => h (Nat.succ_injective hh)]

theorem modifyIdx_length {α : Type} (f : α → α) (i : Nat) (l : List α) :
    (modifyIdx f i l).length = l.length := by
  induction l generalizing i with
  | nil => cases i <;> rfl
  | cons x xs ih =>
    cases i with
    | zero => rfl
    | succ n => simp [modifyIdx, ih]

theorem modifyIdx_append_last {α : Type} (f : α → α) (l : List α) (x : α) :
    modifyIdx f l.length (l ++ [x]) = l ++ [f x] := by
  induction l with
  | nil => rfl
  | cons y ys ih => simp [modifyIdx, ih]

theorem typesOf_modifyIdx (f : JStage → JStage)
    (hf : ∀ s, stageType (f s) = stageType s) (i : Nat) (l : List JStage) :
    typesOf (modifyIdx f i l) = typesOf l := by
  induction l generalizing i with
  | nil => cases i <;> rfl
  | cons x xs ih =>
    cases i with
    | zero => simp [modifyIdx, typesOf, hf]
    | succ n =>
      have := ih n
      simp only [modifyIdx, typesOf, List.map_cons] at *
      rw [this]

theorem findStageIdx_congr (p q : List JStage) (h : typesOf p = typesOf q)
    (t : String) : findStageIdx p t = findStageIdx q t := by
  induction p generalizing q with
  | nil =>
    cases q with
    | nil => rfl
    | cons y ys => simp [typesOf] at h
  | cons x xs ih =>
    cases q with
    | nil => simp [typesOf] at h
    | cons y ys =>
      simp only [typesOf, List.map_cons, List.cons.injEq] at h
      obtain ⟨h1, h2⟩ := h
      simp only [findStageIdx, h1, ih ys h2]

theorem findStageIdx_none_iff (p : List JStage) (t : String) :
    findStageIdx p t = none ↔ ∀ s ∈ p, ¬ stageType s = t := by
  induction p with
  | nil => simp [findStageIdx]
  | cons x xs ih =>
    by_cases h : stageType x = t
    · simp [findStageIdx, h]
    · simp [findStageIdx, h, ih]

theorem findStageIdx_some_spec (p : List JStage) (t : String) :
    ∀ i, findStageIdx p t = some i →
      i < p.length ∧ ∃ s, p.get? i = some s ∧ stageType s = t := by
  induction p with
  | nil => intro i h; simp [findStageIdx] at h
  | cons x xs ih =>
    intro i h
    by_cases hx : stageType x = t
    · simp only [findStageIdx, hx] at h
      simp only [beq_self_eq_true, if_true] at h
      obtain rfl : (0 : Nat) = i := Option.some.inj h
      exact ⟨by simp, x, rfl, hx⟩
    · have hbeq : (stageType x == t) = false := by
        simp [hx]
      simp only [findStageIdx] at h
      rw [if_neg (by simp [hx])] at h
      obtain ⟨k, hk, rfl⟩ := Option.map_eq_some'.mp h
      obtain ⟨hlt, s, hs, hst⟩ := ih k hk
      exact ⟨by simpa using hlt, s, hs, hst⟩

theorem findStageIdx_append_left (p q : List JStage) (t : String) (i : Nat)
    (h : findStageIdx p t = some i) :
    findStageIdx (p ++ q) t = some i := by
  induction p generalizing i with
  | nil => simp [findStageIdx] at h
  | cons x xs ih =>
    by_cases hx : stageType x = t
    · simp only [findStageIdx, hx] at h ⊢
      simpa using h
    · simp only [List.cons_append, findStageIdx, List.append_eq] at h ⊢
      rw [if_neg (by simp [hx])] at h ⊢
      obtain ⟨k, hk, rfl⟩ := Option.map_eq_some'.mp h
      rw [ih k hk]
      rfl

theorem findStageIdx_append_singleton_none (p : List JStage) (t : String)
    (s : JStage) (h : findStageIdx p t = none) :
    findStageIdx (p ++ [s]) t =
      if stageType s == t then some p.length else none := by
  induction p with
  | nil => simp [findStageIdx]
  | cons x xs ih =>
    simp only [findStageIdx] at h
    by_cases hx : stageType x = t
    · rw [if_pos (by simp [hx])] at h
      exact absurd h (by simp)
    · rw [if_neg (by simp [hx])] at h
      have hxs : findStageIdx xs t = none := by
        cases hfs : findStageIdx xs t with
        | none => rfl
        | some k => rw [hfs] at h; simp at h
      simp only [List.cons_append, findStageIdx, List.append_eq]
      rw [if_neg (by simp [hx]), ih hxs]
      by_cases hs : stageType s = t
      · simp [hs]
      · simp [hs]

theorem countOfType_eq_zero (p : List JStage) (t : String)
    (h : findStageIdx p t = none) : countOfType p t = 0 := by
  rw [countOfType, List.countP_eq_zero]
  intro s hs
  simpa using (findStageIdx_none_iff p t).mp h s hs

theorem countOfType_modifyIdx (f : JStage → JStage)
    (hf : ∀ s, stageType (f s) = stageType s) (i : Nat) (l : List JStage)
    (t : String) : countOfType (modifyIdx f i l) t = countOfType l t := by
  induction l generalizing i with
  | nil => cases i <;> rfl
  | cons x xs ih =>
    cases i with
    | zero => simp [modifyIdx, countOfType, List.countP_cons, hf]
    | succ n =>
      simp only [modifyIdx, countOfType, List.countP_cons] at *
      rw [ih n]

theorem countOfType_append (p q : List JStage) (t : String) :
    countOfType (p ++ q) t = countOfType p t + countOfType q t := by
  simp [countOfType, List.countP_append]

theorem stageType_setInSrs (r : Reprojection) (s : JStage) :
    stageType (setInSrs r s) = stageType s := by
  unfold setInSrs
  split <;> rfl

theorem stageType_setOutSrs (o : String) (s : JStage) :
    stageType (setOutSrs o s) = stageType s := rfl

theorem stageType_setEnumerate (s : JStage) :
    stageType (setEnumerate s) = stageType s := by
  unfold setEnumerate
  split <;> rfl

theorem setEnumerate_fields (s : JStage) :
    (setEnumerate s).overrideSrs = s.overrideSrs ∧
    (setEnumerate s).defaultSrs = s.defaultSrs ∧
    (setEnumerate s).outSrs = s.outSrs := by
  unfold setEnumerate
  split <;> exact ⟨rfl, rfl, rfl⟩

theorem length_pos_of_ne_empty (s : String) (h : s ≠ "") : 0 < s.length := by
  rcases Nat.eq_zero_or_pos s.length with h0 | hp
  · have hdata : s.data = [] := List.length_eq_zero.mp h0
    exact absurd (String.ext hdata) h
  · exact hp

/-- C8, amended. For every non-empty array pipeline and reprojection
`(in, out, hammer)`: `createInfoPipeline` sets `override_srs = in` on the
first stage when `hammer`, `default_srs = in` otherwise, and neither when
`in` is empty; it gives the FIRST `filters.reprojection` stage
`out_srs = out`, appending such a stage only when none existed (in which
case exactly one results — a pipeline that already held several keeps
them all, only the first being updated); and when no `filters.stats` stage
existed it appends one at the end with an `enumerate` setting. -/
theorem createInfoPipeline_spec (pipeline : List JStage) (r : Reprojection)
    (hne : pipeline ≠ []) :
    ∃ p', createInfoPipeline pipeline (some r) = Except.ok p' ∧
      (∃ s0 s0', pipeline.get? 0 = some s0 ∧ p'.get? 0 = some s0' ∧
        (r.inSrs ≠ "" → r.hammer = true →
          s0'.overrideSrs = some r.inSrs ∧ s0'.defaultSrs = s0.defaultSrs) ∧
        (r.inSrs ≠ "" → r.hammer = false →
          s0'.defaultSrs = some r.inSrs ∧ s0'.overrideSrs = s0.overrideSrs) ∧
        (r.inSrs = "" →
          s0'.overrideSrs = s0.overrideSrs ∧
          s0'.defaultSrs = s0.defaultSrs)) ∧
      (∃ i s, findStageIdx p' "filters.reprojection" = some i ∧
        p'.get? i = some s ∧ s.outSrs = some r.outSrs ∧
        stageType s = "filters.reprojection") ∧
      (findStageIdx pipeline "filters.reprojection" = none →
        countOfType p' "filters.reprojection" = 1) ∧
      (findStageIdx pipeline "filters.stats" = none →
        ∃ s, p'.getLast? = some s ∧ stageType s = "filters.stats" ∧
          s.enumerate ≠ none) := by
  obtain ⟨s0, rest, rfl⟩ := List.exists_cons_of_ne_nil hne
  set pipe := s0 :: rest with hpipe
  set pa := if r.inSrs.length > 0 then modifyIdx (setInSrs r) 0 pipe else pipe
    with hpa
  set fr := findOrAppendStage pa "filters.reprojection" with hfr
  set p1 := modifyIdx (setOutSrs r.outSrs) fr.2 fr.1 with hp1
  set fs := findOrAppendStage p1 "filters.stats" with hfs
  set p2 := modifyIdx setEnumerate fs.2 fs.1 with hp2
  have hres : createInfoPipeline pipe (some r) = Except.ok p2 := rfl
  have htypa : typesOf pa = typesOf pipe := by
    rw [hpa]
    by_cases h : r.inSrs.length > 0
    · rw [if_pos h]
      exact typesOf_modifyIdx _ (stageType_setInSrs r) 0 pipe
    · rw [if_neg h]
  have hpa_cons :
      pa = (if r.inSrs.length > 0 then setInSrs r s0 else s0) :: rest := by
    rw [hpa, hpipe]
    by_cases h : r.inSrs.length > 0
    · rw [if_pos h, if_pos h]
      rfl
    · rw [if_neg h, if_neg h]
  have hfr_cases :
      (∃ i, findStageIdx pa "filters.reprojection" = some i ∧
        fr.1 = pa ∧ fr.2 = i) ∨
      (findStageIdx pa "filters.reprojection" = none ∧
        fr.1 = pa ++ [{ type := some "filters.reprojection" }] ∧
        fr.2 = pa.length) := by
    cases h : findStageIdx pa "filters.reprojection" with
    | some i =>
      exact Or.inl ⟨i, rfl, by rw [hfr, findOrAppendStage, h],
        by rw [hfr, findOrAppendStage, h]⟩
    | none =>
      exact Or.inr ⟨rfl, by rw [hfr, findOrAppendStage, h],
        by rw [hfr, findOrAppendStage, h]⟩
  have hfs_cases :
      (∃ j, findStageIdx p1 "filters.stats" = some j ∧
        fs.1 = p1 ∧ fs.2 = j) ∨
      (findStageIdx p1 "filters.stats" = none ∧
        fs.1 = p1 ++ [{ type := some "filters.stats" }] ∧
        fs.2 = p1.length) := by
    cases h : findStageIdx p1 "filters.stats" with
    | some j =>
      exact Or.inl ⟨j, rfl, by rw [hfs, findOrAppendStage, h],
        by rw [hfs, findOrAppendStage, h]⟩
    | none =>
      exact Or.inr ⟨rfl, by rw [hfs, findOrAppendStage, h],
        by rw [hfs, findOrAppendStage, h]⟩
  have hp2_of_p1 : ∀ j sb, p1.get? j = some sb →
      ∃ sc, p2.get? j = some sc ∧
        sc.overrideSrs = sb.overrideSrs ∧ sc.defaultSrs = sb.defaultSrs ∧
        sc.outSrs = sb.outSrs ∧ stageType sc = stageType sb := by
    intro j sb hj
    have hjlt : j < p1.length := by
      obtain ⟨h, -⟩ := List.get?_eq_some.mp hj
      exact h
    rcases hfs_cases with ⟨i, hfind, hfs1, hfs2⟩ | ⟨hfind, hfs1, hfs2⟩
    · rw [hp2, hfs1, hfs2, modifyIdx_get?]
      by_cases hij : i = j
      · rw [if_pos hij, hj]
        exact ⟨setEnumerate sb, rfl, (setEnumerate_fields sb).1,
          (setEnumerate_fields sb).2.1, (setEnumerate_fields sb).2.2,
          stageType_setEnumerate sb⟩
      · rw [if_neg hij, hj]
        exact ⟨sb, rfl, rfl, rfl, rfl, rfl⟩
    · rw [hp2, hfs1, hfs2, modifyIdx_append_last, List.get?_append hjlt, hj]
      exact ⟨sb, rfl, rfl, rfl, rfl, rfl⟩
  have hp1_of_pa : ∀ j sb, pa.get? j = some sb →
      ∃ sc, p1.get? j = some sc ∧
        sc.overrideSrs = sb.overrideSrs ∧ sc.defaultSrs = sb.defaultSrs ∧
        stageType sc = stageType sb := by
    intro j sb hj
    have hjlt : j < pa.length := by
      obtain ⟨h, -⟩ := List.get?_eq_some.mp hj
      exact h
    rcases hfr_cases with ⟨i, hfind, hfr1, hfr2⟩ | ⟨hfind, hfr1, hfr2⟩
    · rw [hp1, hfr1, hfr2, modifyIdx_get?]
      by_cases hij : i = j
      · rw [if_pos hij, hj]
        exact ⟨setOutSrs r.outSrs sb, rfl, rfl, rfl,
          stageType_setOutSrs r.outSrs sb⟩
      · rw [if_neg hij, hj]
        exact ⟨sb, rfl, rfl, rfl, rfl⟩
    · rw [hp1, hfr1, hfr2, modifyIdx_append_last, List.get?_append hjlt, hj]
      exact ⟨sb, rfl, rfl, rfl, rfl⟩
  have hfind_p2_of_p1 : ∀ t i, findStageIdx p1 t = some i →
      findStageIdx p2 t = some i := by
    intro t i h
    rcases hfs_cases with ⟨j, hfind, hfs1, hfs2⟩ | ⟨hfind, hfs1, hfs2⟩
    · rw [hp2, hfs1, hfs2,
        findStageIdx_congr _ p1 (typesOf_modifyIdx _ stageType_setEnumerate j p1)]
      exact h
    · rw [hp2, hfs1, hfs2, modifyIdx_append_last]
      exact findStageIdx_append_left p1 _ t i h
  refine ⟨p2, hres, ?_, ?_, ?_, ?_⟩
  · -- input-SRS handling on stage 0
    have hpa0 : pa.get? 0 =
        some (if r.inSrs.length > 0 then setInSrs r s0 else s0) := by
      rw [hpa_cons]
      rfl
    obtain ⟨sb, hb, hbo, hbd, -⟩ := hp1_of_pa 0 _ hpa0
    obtain ⟨sc, hc, hco, hcd, -, -⟩ := hp2_of_p1 0 sb hb
    refine ⟨s0, sc, rfl, hc, ?_, ?_, ?_⟩
    · intro hin hham
      have hlen : r.inSrs.length > 0 := length_pos_of_ne_empty _ hin
      rw [hco, hbo, hcd, hbd, if_pos hlen]
      unfold setInSrs
      rw [hham]
      exact ⟨rfl, rfl⟩
    · intro hin hham
      have hlen : r.inSrs.length > 0 := length_pos_of_ne_empty _ hin
      rw [hco, hbo, hcd, hbd, if_pos hlen]
      unfold setInSrs
      rw [hham]
      exact ⟨rfl, rfl⟩
    · intro hin
      have hlen : ¬ r.inSrs.length > 0 := by
        rw [hin]
        simp
      rw [hco, hbo, hcd, hbd, if_neg hlen]
      exact ⟨rfl, rfl⟩
  · -- the first filters.reprojection stage carries out_srs = out
    rcases hfr_cases with ⟨i, hfind, hfr1, hfr2⟩ | ⟨hfind, hfr1, hfr2⟩
    · obtain ⟨hlt, si, hsi, hsit⟩ := findStageIdx_some_spec pa _ i hfind
      have hp1i : p1.get? i = some (setOutSrs r.outSrs si) := by
        rw [hp1, hfr1, hfr2, modifyIdx_get?, if_pos rfl, hsi]
        rfl
      have hfty : findStageIdx p1 "filters.reprojection" = some i := by
        rw [hp1, hfr1, hfr2, findStageIdx_congr _ pa
          (typesOf_modifyIdx _ (stageType_setOutSrs r.outSrs) i pa)]
        exact hfind
      obtain ⟨sc, hc, -, -, hcout, hcty⟩ := hp2_of_p1 i _ hp1i
      refine ⟨i, sc, hfind_p2_of_p1 _ i hfty, hc, ?_, ?_⟩
      · rw [hcout]
        rfl
      · rw [hcty, stageType_setOutSrs]
        exact hsit
    · have hp1eq : p1 = pa ++
          [setOutSrs r.outSrs { type := some "filters.reprojection" }] := by
        rw [hp1, hfr1, hfr2, modifyIdx_append_last]
      have hfpa : findStageIdx p1 "filters.reprojection" = some pa.length := by
        rw [hp1eq, findStageIdx_append_singleton_none pa _ _ hfind]
        rw [if_pos (by rfl)]
      have hgi : p1.get? pa.length =
          some (setOutSrs r.outSrs { type := some "filters.reprojection" }) := by
        rw [hp1eq, List.get?_concat_length]
      obtain ⟨sc, hc, -, -, hcout, hcty⟩ := hp2_of_p1 _ _ hgi
      refine ⟨pa.length, sc, hfind_p2_of_p1 _ _ hfpa, hc, ?_, ?_⟩
      · rw [hcout]
        rfl
      · rw [hcty]
        rfl
  · -- exactly one reprojection stage when none pre-existed
    intro hnone
    have hpanone : findStageIdx pa "filters.reprojection" = none := by
      rw [findStageIdx_congr pa pipe htypa]
      exact hnone
    rcases hfr_cases with ⟨i, hfind, -, -⟩ | ⟨hfind, hfr1, hfr2⟩
    · rw [hpanone] at hfind
      exact absurd hfind (by simp)
    · have hp1eq : p1 = pa ++
          [setOutSrs r.outSrs { type := some "filters.reprojection" }] := by
        rw [hp1, hfr1, hfr2, modifyIdx_append_last]
      have hcount1 : countOfType p1 "filters.reprojection" = 1 := by
        rw [hp1eq, countOfType_append, countOfType_eq_zero pa _ hpanone]
        rfl
      rcases hfs_cases with ⟨j, hsfind, hfs1, hfs2⟩ | ⟨hsfind, hfs1, hfs2⟩
      · rw [hp2, hfs1, hfs2, countOfType_modifyIdx _ stageType_setEnumerate]
        exact hcount1
      · rw [hp2, hfs1, hfs2, modifyIdx_append_last, countOfType_append,
          hcount1]
        rfl
  · -- a stats stage with enumerate appended at the end when none existed
    intro hnost
    have hpastats : findStageIdx pa "filters.stats" = none := by
      rw [findStageIdx_congr pa pipe htypa]
      exact hnost
    have hstats1 : findStageIdx p1 "filters.stats" = none := by
      rcases hfr_cases with ⟨i, hfind, hfr1, hfr2⟩ | ⟨hfind, hfr1, hfr2⟩
      · rw [hp1, hfr1, hfr2, findStageIdx_congr _ pa
          (typesOf_modifyIdx _ (stageType_setOutSrs r.outSrs) i pa)]
        exact hpastats
      · rw [hp1, hfr1, hfr2, modifyIdx_append_last,
          findStageIdx_append_singleton_none pa _ _ hpastats]
        rw [if_neg (by simp [setOutSrs, stageType])]
    rcases hfs_cases with ⟨j, hsfind, -, -⟩ | ⟨hsfind, hfs1, hfs2⟩
    · rw [hstats1] at hsfind
      exact absurd hsfind (by simp)
    · refine ⟨setEnumerate { type := some "filters.stats" }, ?_, rfl, ?_⟩
      · rw [hp2, hfs1, hfs2, modifyIdx_append_last, List.getLast?_concat]
      · intro hcontra
        simp [setEnumerate] at hcontra

/-- Witness for the amended C8 at the one-stage pipeline
`[readers.las]` with reprojection `(in := "IN", out := "OUT",
hammer := true)`. -/
theorem createInfoPipeline_spec_witness :
    ∃ p', createInfoPipeline [{ type := some "readers.las" }]
        (some ⟨"IN", "OUT", true⟩) = Except.ok p' ∧
      (∃ s0 s0',
        ([{ type := some "readers.las" }] : List JStage).get? 0 = some s0 ∧
        p'.get? 0 = some s0' ∧
        (("IN" : String) ≠ "" → (true : Bool) = true →
          s0'.overrideSrs = some "IN" ∧ s0'.defaultSrs = s0.defaultSrs) ∧
        (("IN" : String) ≠ "" → (true : Bool) = false →
          s0'.defaultSrs = some "IN" ∧ s0'.overrideSrs = s0.overrideSrs) ∧
        (("IN" : String) = "" →
          s0'.overrideSrs = s0.overrideSrs ∧
          s0'.defaultSrs = s0.defaultSrs)) ∧
      (∃ i s, findStageIdx p' "filters.reprojection" = some i ∧
        p'.get? i = some s ∧ s.outSrs = some "OUT" ∧
        stageType s = "filters.reprojection") ∧
      (findStageIdx [{ type := some "readers.las" }]
          "filters.reprojection" = none →
        countOfType p' "filters.reprojection" = 1) ∧
      (findStageIdx [{ type := some "readers.las" }] "filters.stats" = none →
        ∃ s, p'.getLast? = some s ∧ stageType s = "filters.stats" ∧
          s.enumerate ≠ none) :=
  createInfoPipeline_spec [{ type := some "readers.las" }]
    ⟨"IN", "OUT", true⟩ (by simp)

/-- Counterexample to C8 as frozen: a pipeline that already holds two
`filters.reprojection` stages keeps both — only the first is given
`out_srs = out` — so `createInfoPipeline` does not ensure exactly one
reprojection stage whose `out_srs` equals `out`. -/
theorem createInfoPipeline_two_reprojections_counterexample :
    createInfoPipeline
      [{ type := some "readers.las" },
       { type := some "filters.reprojection", outSrs := some "A" },
       { type := some "filters.reprojection", outSrs := some "B" }]
      (some ⟨"", "OUT", false⟩) =
      Except.ok
        [{ type := some "readers.las" },
         { type := some "filters.reprojection", outSrs := some "OUT" },
         { type := some "filters.reprojection", outSrs := some "B" },
         { type := some "filters.stats", enumerate := some "Classification" }] ∧
    countOfType
      [{ type := some "readers.las" },
       { type := some "filters.reprojection", outSrs := some "OUT" },
       { type := some "filters.reprojection", outSrs := some "B" },
       { type := some "filters.stats", enumerate := some "Classification" }]
      "filters.reprojection" = 2 := by
  exact ⟨rfl, rfl⟩

end Entwine
